import Mathlib

/-
Verification of the annil-server provider core (src/provider.rs).

Modelling conventions:
- A byte is a `Nat` (well-formed streams carry values < 256).
- A `ResourceReader` (forward-only async byte source) is a `List Nat`: the
  bytes it will deliver, in order.  Reading `n` bytes succeeds exactly when at
  least `n` bytes remain; a shorter source models both clean EOF and an
  upstream I/O error, since the fixed-size reads used by the code
  (`read_u32`, `BlockStreamInfo::from_async_reader`) fail in either case.
- Fallible Rust code returning `Result` is modelled with `Outcome`; `.panic`
  marks executions that panic in Rust (`unwrap`, `todo!`, `unimplemented!`,
  integer division by zero, string slicing off a char boundary).
- Rust strings are lists of their UTF-8 bytes, so `len()` and byte slicing
  translate directly.
-/

namespace Annil

/-- Result of running a piece of Rust code: a normal return value, an error
returned to the caller (`Err` of `anni_provider::Result`), or a panic. -/
inductive Outcome (α : Type) : Type
  | ok (a : α)
  | error
  | panic
  deriving DecidableEq, Repr

/-- Big-endian interpretation of a byte list, as read by `read_u32` and by the
fixed-width field reads of the FLAC STREAMINFO decoder. -/
def bytesToNatBE : List Nat → Nat
  | [] => 0
  | b :: rest => b * 256 ^ rest.length + bytesToNatBE rest

/-- Big-endian encoding of a value into a fixed number of bytes, as written by
`write_u32` and the fixed-width field writes of the STREAMINFO encoder. -/
def natToBytesBE : Nat → Nat → List Nat
  | 0, _ => []
  | n + 1, v => v / 256 ^ n :: natToBytesBE n (v % 256 ^ n)

theorem bytesToNatBE_lt (l : List Nat) (h : ∀ b ∈ l, b < 256) :
    bytesToNatBE l < 256 ^ l.length := by
  induction l with
  | nil => simp [bytesToNatBE]
  | cons b rest ih =>
    have hb : b < 256 := h b (List.mem_cons_self b rest)
    have hr : bytesToNatBE rest < 256 ^ rest.length :=
      ih (fun x hx => h x (List.mem_cons_of_mem b hx))
    have hb1 : b + 1 ≤ 256 := hb
    calc bytesToNatBE (b :: rest)
        = b * 256 ^ rest.length + bytesToNatBE rest := rfl
      _ < b * 256 ^ rest.length + 256 ^ rest.length := by omega
      _ = (b + 1) * 256 ^ rest.length := by ring
      _ ≤ 256 * 256 ^ rest.length := by
          exact Nat.mul_le_mul_right _ hb1
      _ = 256 ^ (b :: rest).length := by
          simp [List.length_cons, pow_succ]; ring

theorem natToBytesBE_bytesToNatBE (l : List Nat) (h : ∀ b ∈ l, b < 256) :
    natToBytesBE l.length (bytesToNatBE l) = l := by
  induction l with
  | nil => rfl
  | cons b rest ih =>
    have hr : bytesToNatBE rest < 256 ^ rest.length :=
      bytesToNatBE_lt rest (fun x hx => h x (List.mem_cons_of_mem b hx))
    have hdiv : (b * 256 ^ rest.length + bytesToNatBE rest) / 256 ^ rest.length = b := by
      rw [mul_comm, Nat.mul_add_div (Nat.pos_pow_of_pos _ (by norm_num)),
        Nat.div_eq_of_lt hr, Nat.add_zero]
    have hmod : (b * 256 ^ rest.length + bytesToNatBE rest) % 256 ^ rest.length
        = bytesToNatBE rest := by
      rw [mul_comm, Nat.mul_add_mod, Nat.mod_eq_of_lt hr]
    show natToBytesBE (rest.length + 1) (b * 256 ^ rest.length + bytesToNatBE rest)
        = b :: rest
    rw [natToBytesBE, hdiv, hmod, ih (fun x hx => h x (List.mem_cons_of_mem b hx))]

theorem natToBytesBE_length (n v : Nat) : (natToBytesBE n v).length = n := by
  induction n generalizing v with
  | zero => rfl
  | succ k ih => simp [natToBytesBE, ih]

/-- Decoded FLAC STREAMINFO metadata block, `anni_flac::blocks::BlockStreamInfo`.
Modelled from the spec: the `anni_flac` crate is an external collaborator; the
spec fixes a 34-byte structure holding (among other fields) `sample_rate` and
`total_samples`, laid out per the FLAC format: minimum/maximum block size
(16 bits each), minimum/maximum frame size (24 bits each), one 64-bit word
packing sample rate (20 bits), channels minus one (3 bits), bits per sample
minus one (5 bits) and total samples (36 bits), then a 16-byte MD5 signature. -/
structure BlockStreamInfo where
  min_block_size : Nat
  max_block_size : Nat
  min_frame_size : Nat
  max_frame_size : Nat
  sample_rate : Nat
  channels : Nat
  bits_per_sample : Nat
  total_samples : Nat
  md5_signature : List Nat
  deriving DecidableEq, Repr

/-- Field extraction from the 34 raw bytes of a STREAMINFO block
(`BlockStreamInfo::from_async_reader`, minus the byte-reading itself). -/
def decodeStreamInfo (b : List Nat) : BlockStreamInfo :=
  let packed := bytesToNatBE ((b.drop 10).take 8)
  { min_block_size := bytesToNatBE (b.take 2)
    max_block_size := bytesToNatBE ((b.drop 2).take 2)
    min_frame_size := bytesToNatBE ((b.drop 4).take 3)
    max_frame_size := bytesToNatBE ((b.drop 7).take 3)
    sample_rate := packed / 2 ^ 44
    channels := packed / 2 ^ 41 % 8 + 1
    bits_per_sample := packed / 2 ^ 36 % 32 + 1
    total_samples := packed % 2 ^ 36
    md5_signature := (b.drop 18).take 16 }

/-- Re-encoding of a STREAMINFO block into its 34 raw bytes
(`BlockStreamInfo::write_to`). -/
def encodeStreamInfo (i : BlockStreamInfo) : List Nat :=
  natToBytesBE 2 i.min_block_size ++ natToBytesBE 2 i.max_block_size ++
    natToBytesBE 3 i.min_frame_size ++ natToBytesBE 3 i.max_frame_size ++
    natToBytesBE 8 (i.sample_rate * 2 ^ 44 + (i.channels - 1) * 2 ^ 41 +
      (i.bits_per_sample - 1) * 2 ^ 36 + i.total_samples) ++
    i.md5_signature

theorem packed_split (p : Nat) :
    p / 2 ^ 44 * 2 ^ 44 + p / 2 ^ 41 % 8 * 2 ^ 41 + p / 2 ^ 36 % 32 * 2 ^ 36 + p % 2 ^ 36
      = p := by
  have h44 : (2 : Nat) ^ 44 = 17592186044416 := by norm_num
  have h41 : (2 : Nat) ^ 41 = 2199023255552 := by norm_num
  have h36 : (2 : Nat) ^ 36 = 68719476736 := by norm_num
  rw [h44, h41, h36]
  omega

theorem encodeStreamInfo_decodeStreamInfo (b : List Nat) (hlen : b.length = 34)
    (hb : ∀ x ∈ b, x < 256) : encodeStreamInfo (decodeStreamInfo b) = b := by
  have hsub : ∀ n k : Nat, ∀ x ∈ (b.drop n).take k, x < 256 := fun n k x hx =>
    hb x (List.drop_subset n b (List.take_subset k _ hx))
  have htk : ∀ x ∈ b.take 2, x < 256 := fun x hx => hb x (List.take_subset 2 b hx)
  have seg : ∀ n k : Nat, n + k ≤ 34 → ((b.drop n).take k).length = k := by
    intro n k hnk
    simp [List.length_take, List.length_drop, hlen]
    omega
  have seg0 : (b.take 2).length = 2 := by
    simp [List.length_take, hlen]
  have rt : ∀ n k : Nat, n + k ≤ 34 →
      natToBytesBE k (bytesToNatBE ((b.drop n).take k)) = (b.drop n).take k := by
    intro n k hnk
    have h := natToBytesBE_bytesToNatBE ((b.drop n).take k) (hsub n k)
    rwa [seg n k hnk] at h
  have rt0 : natToBytesBE 2 (bytesToNatBE (b.take 2)) = b.take 2 := by
    have h := natToBytesBE_bytesToNatBE (b.take 2) htk
    rwa [seg0] at h
  have hpacked :
      (decodeStreamInfo b).sample_rate * 2 ^ 44 + ((decodeStreamInfo b).channels - 1) * 2 ^ 41 +
          ((decodeStreamInfo b).bits_per_sample - 1) * 2 ^ 36 + (decodeStreamInfo b).total_samples
        = bytesToNatBE ((b.drop 10).take 8) := by
    simp only [decodeStreamInfo, Nat.add_sub_cancel]
    exact packed_split _
  have hmd5 : (b.drop 18).take 16 = b.drop 18 := by
    apply List.take_of_length_le
    simp [List.length_drop, hlen]
  calc encodeStreamInfo (decodeStreamInfo b)
      = b.take 2 ++ (b.drop 2).take 2 ++ (b.drop 4).take 3 ++ (b.drop 7).take 3 ++
          (b.drop 10).take 8 ++ (b.drop 18).take 16 := by
        rw [encodeStreamInfo, hpacked]
        rw [show (decodeStreamInfo b).min_block_size = bytesToNatBE (b.take 2) from rfl,
          show (decodeStreamInfo b).max_block_size = bytesToNatBE ((b.drop 2).take 2) from rfl,
          show (decodeStreamInfo b).min_frame_size = bytesToNatBE ((b.drop 4).take 3) from rfl,
          show (decodeStreamInfo b).max_frame_size = bytesToNatBE ((b.drop 7).take 3) from rfl,
          show (decodeStreamInfo b).md5_signature = (b.drop 18).take 16 from rfl]
        rw [rt0, rt 2 2 (by omega), rt 4 3 (by omega), rt 7 3 (by omega), rt 10 8 (by omega)]
    _ = b := by
        rw [hmd5]
        have h2 : b.take 2 ++ b.drop 2 = b := List.take_append_drop 2 b
        have s2 : (b.drop 2).take 2 ++ b.drop 4 = b.drop 2 := by
          have := List.take_append_drop 2 (b.drop 2)
          rwa [List.drop_drop] at this
        have s4 : (b.drop 4).take 3 ++ b.drop 7 = b.drop 4 := by
          have := List.take_append_drop 3 (b.drop 4)
          rwa [List.drop_drop] at this
        have s7 : (b.drop 7).take 3 ++ b.drop 10 = b.drop 7 := by
          have := List.take_append_drop 3 (b.drop 7)
          rwa [List.drop_drop] at this
        have s10 : (b.drop 10).take 8 ++ b.drop 18 = b.drop 10 := by
          have := List.take_append_drop 8 (b.drop 10)
          rwa [List.drop_drop] at this
        simp only [List.append_assoc]
        rw [s10, s7, s4, s2, h2]

/-- Byte range of the served region, `anni_provider::Range`.  Modelled from
the spec: the `anni_provider` crate is an external collaborator; the spec fixes
`RangeSpec = \x7bstart, optional end, optional total\x7d` with `FULL = \x7b0, None, None\x7d`.
`end` is a Lean keyword, hence the field name `end_`. -/
structure Range where
  start : Nat
  end_ : Option Nat
  total : Option Nat
  deriving DecidableEq, Repr

/-- The `FULL` sentinel: the entire resource. -/
def Range.FULL : Range := ⟨0, none, none⟩

/-- Modelled from the spec: `Range::contains_flac_header` lives in the external
`anni_provider` crate; the spec states that extraction applies exactly when the
served range begins at file offset 0. -/
def Range.contains_flac_header (r : Range) : Bool := r.start == 0

/-- Reading exactly `n` bytes from a forward-only source (`read_u32` reads 4,
`BlockStreamInfo::from_async_reader` reads 34).  Fails when fewer than `n`
bytes remain (truncation or upstream I/O error). -/
def readBytes (n : Nat) (r : List Nat) : Option (List Nat × List Nat) :=
  if n ≤ r.length then some (r.take n, r.drop n) else none

/-- Model of `read_header` (provider.rs lines 267-282): read two big-endian
u32 words with `.unwrap()` (panic on failure), then decode the 34-byte
STREAMINFO block propagating its error with `?`; re-emit the two words and the
re-encoded block into an in-memory cursor and chain it with the rest of the
reader. -/
def read_header (r : List Nat) : Outcome (BlockStreamInfo × List Nat) :=
  match readBytes 4 r with
  | none => .panic
  | some (w1, r1) =>
    match readBytes 4 r1 with
    | none => .panic
    | some (w2, r2) =>
      match readBytes 34 r2 with
      | none => .error
      | some (blk, r3) =>
        let info := decodeStreamInfo blk
        .ok (info, natToBytesBE 4 (bytesToNatBE w1) ++ natToBytesBE 4 (bytesToNatBE w2) ++
          encodeStreamInfo info ++ r3)

/-- Model of `read_duration` (provider.rs lines 284-295): skip extraction
unless the range contains the FLAC header; otherwise read the header and
compute `total_samples / sample_rate` — a Rust `u64` division, which panics
when `sample_rate` is zero. -/
def read_duration (reader : List Nat) (range : Range) : Outcome (Nat × List Nat) :=
  if !range.contains_flac_header then .ok (0, reader)
  else
    match read_header reader with
    | .panic => .panic
    | .error => .error
    | .ok (info, rest) =>
      if info.sample_rate = 0 then .panic
      else .ok (info.total_samples / info.sample_rate, rest)

theorem read_header_of_long (s : List Nat) (hlen : 42 ≤ s.length) :
    read_header s = .ok (decodeStreamInfo ((s.drop 8).take 34),
      natToBytesBE 4 (bytesToNatBE (s.take 4)) ++
        natToBytesBE 4 (bytesToNatBE ((s.drop 4).take 4)) ++
        encodeStreamInfo (decodeStreamInfo ((s.drop 8).take 34)) ++ s.drop 42) := by
  have h4 : (4 : Nat) ≤ s.length := by omega
  have h4d : (4 : Nat) ≤ (s.drop 4).length := by simp [List.length_drop]; omega
  have e8 : (s.drop 4).drop 4 = s.drop 8 := by rw [List.drop_drop]
  have h34 : (34 : Nat) ≤ (s.drop 8).length := by simp [List.length_drop]; omega
  have e42 : (s.drop 8).drop 34 = s.drop 42 := by rw [List.drop_drop]
  have e1 : readBytes 4 s = some (s.take 4, s.drop 4) := by rw [readBytes, if_pos h4]
  have e2 : readBytes 4 (s.drop 4) = some ((s.drop 4).take 4, s.drop 8) := by
    rw [readBytes, if_pos h4d, e8]
  have e3 : readBytes 34 (s.drop 8) = some ((s.drop 8).take 34, s.drop 42) := by
    rw [readBytes, if_pos h34, e42]
  simp only [read_header, e1, e2, e3]

/-- C1: for every input stream on which the duration extractor reads its
42-byte prefix, the reconstructed stream — marker word, block-header word and
re-encoded STREAMINFO block chained with the untouched remainder — when fully
read is byte-for-byte equal to the original stream. -/
theorem reconstructed_stream_eq_original (s : List Nat) (hb : ∀ x ∈ s, x < 256)
    (hlen : 42 ≤ s.length) :
    read_header s = .ok (decodeStreamInfo ((s.drop 8).take 34), s) := by
  rw [read_header_of_long s hlen]
  have hw1 : natToBytesBE 4 (bytesToNatBE (s.take 4)) = s.take 4 := by
    have h := natToBytesBE_bytesToNatBE (s.take 4) (fun x hx => hb x (List.take_subset 4 s hx))
    rwa [show (s.take 4).length = 4 by simp [List.length_take]; omega] at h
  have hw2 : natToBytesBE 4 (bytesToNatBE ((s.drop 4).take 4)) = (s.drop 4).take 4 := by
    have h := natToBytesBE_bytesToNatBE ((s.drop 4).take 4)
      (fun x hx => hb x (List.drop_subset 4 s (List.take_subset 4 _ hx)))
    rwa [show ((s.drop 4).take 4).length = 4 by
      simp [List.length_take, List.length_drop]; omega] at h
  have hblk : encodeStreamInfo (decodeStreamInfo ((s.drop 8).take 34)) = (s.drop 8).take 34 := by
    apply encodeStreamInfo_decodeStreamInfo
    · simp [List.length_take, List.length_drop]; omega
    · exact fun x hx => hb x (List.drop_subset 8 s (List.take_subset 34 _ hx))
  rw [hw1, hw2, hblk]
  have s8 : (s.drop 8).take 34 ++ s.drop 42 = s.drop 8 := by
    have := List.take_append_drop 34 (s.drop 8)
    rwa [List.drop_drop] at this
  have s4 : (s.drop 4).take 4 ++ s.drop 8 = s.drop 4 := by
    have := List.take_append_drop 4 (s.drop 4)
    rwa [List.drop_drop] at this
  have s0 : s.take 4 ++ s.drop 4 = s := List.take_append_drop 4 s
  simp only [List.append_assoc]
  rw [s8, s4, s0]

/-- Witness for C1 at a concrete 43-byte stream (42-byte header region plus a
one-byte payload). -/
theorem reconstructed_stream_eq_original_witness :
    (∀ x ∈ List.replicate 42 7 ++ [9], x < 256) ∧ 42 ≤ (List.replicate 42 7 ++ [9]).length ∧
      read_header (List.replicate 42 7 ++ [9]) =
        .ok (decodeStreamInfo (((List.replicate 42 7 ++ [9]).drop 8).take 34),
          List.replicate 42 7 ++ [9]) :=
  ⟨by decide, by decide, reconstructed_stream_eq_original _ (by decide) (by decide)⟩

/-- Model of `str::split_once(c)` on UTF-8 bytes: split at the first
occurrence of the (ASCII) byte `c`, `none` when `c` does not occur. -/
def splitOnce (c : Nat) : List Nat → Option (List Nat × List Nat)
  | [] => none
  | b :: rest =>
    if b = c then some ([], rest)
    else
      match splitOnce c rest with
      | none => none
      | some (x, y) => some (b :: x, y)

/-- ASCII decimal digit test. -/
def isAsciiDigit (b : Nat) : Bool := 48 ≤ b && b ≤ 57

/-- Model of `str::parse::<u64>()`: an optional leading `+` (byte 43), then
one or more ASCII decimal digits, whose value must fit in 64 bits; anything
else is a parse error. -/
def parseU64 (s : List Nat) : Option Nat :=
  let digits := if s.headD 0 = 43 then s.tail else s
  if digits.isEmpty then none
  else if digits.all isAsciiDigit then
    let v := digits.foldl (fun acc b => acc * 10 + (b - 48)) 0
    if v < 2 ^ 64 then some v else none
  else none

/-- Model of `content_range_to_range` (provider.rs lines 235-259).  A Rust
string is its UTF-8 byte list, so `len()` is the byte length and
`content_range[6..]` drops 6 bytes — an operation that panics when byte
index 6 falls inside a multi-byte character, i.e. when byte 6 is a UTF-8
continuation byte (0x80..0xBF). -/
def content_range_to_range (content_range : Option (List Nat)) : Outcome Range :=
  match content_range with
  | some content_range =>
    if content_range.length ≤ 6 then .ok Range.FULL
    else if 128 ≤ content_range.getD 6 0 ∧ content_range.getD 6 0 < 192 then .panic
    else
      let rest := content_range.drop 6
      let p1 := (splitOnce 45 rest).getD (rest, [])
      let p2 := (splitOnce 47 p1.2).getD (p1.2, [])
      .ok { start := (parseU64 p1.1).getD 0, end_ := parseU64 p2.1, total := parseU64 p2.2 }
  | none => .ok Range.FULL

/-- ASCII bytes of the canonical decimal numeral of `n`, most significant
digit first (the output of Rust integer formatting). -/
def natDigits (n : Nat) : List Nat :=
  if n = 0 then [48] else (Nat.digits 10 n).reverse.map (fun d => d + 48)

/-- Descriptor assembled by `get_audio`, `anni_provider::AudioInfo`. -/
structure AudioInfo where
  extension : String
  size : Nat
  duration : Nat
  deriving DecidableEq, Repr

/-- Value returned by `get_audio`, `anni_provider::AudioResourceReader`. -/
structure AudioResourceReader where
  info : AudioInfo
  range : Range
  reader : List Nat
  deriving DecidableEq, Repr

/-- The parts of an upstream HTTP response that `get_audio` and
`read_response` consume: the transport-reported content length, the
Content-Range header (already restricted to `to_str`-convertible values by
the caller), and the body bytes. -/
structure HttpResponse where
  content_length : Option Nat
  content_range : Option (List Nat)
  body : List Nat
  deriving DecidableEq, Repr

/-- Model of `read_response` (provider.rs lines 297-305): parse the
Content-Range header into a range, then run `read_duration` on the body. -/
def read_response (resp : HttpResponse) : Outcome (Nat × List Nat) :=
  match content_range_to_range resp.content_range with
  | .ok range => read_duration resp.body range
  | .error => .error
  | .panic => .panic

/-- Model of the response handling of `WebdavProvider::get_audio`
(provider.rs lines 74-86), from the received response on:
`resp.content_length().unwrap()` (panic when the transport reports no
length), then `read_response`, then assembly of the `AudioResourceReader`. -/
def WebdavProvider.get_audio_response (resp : HttpResponse) (range : Range) :
    Outcome AudioResourceReader :=
  match resp.content_length with
  | none => .panic
  | some content_length =>
    match read_response resp with
    | .panic => .panic
    | .error => .error
    | .ok (duration, reader) =>
      .ok { info := { extension := "flac", size := content_length, duration := duration },
            range := range, reader := reader }

/-- Model of the response handling of `SeafileProvider::get_audio`
(provider.rs lines 181-193); its body is line-for-line the same as the
WebDAV one. -/
def SeafileProvider.get_audio_response (resp : HttpResponse) (range : Range) :
    Outcome AudioResourceReader :=
  match resp.content_length with
  | none => .panic
  | some content_length =>
    match read_response resp with
    | .panic => .panic
    | .error => .error
    | .ok (duration, reader) =>
      .ok { info := { extension := "flac", size := content_length, duration := duration },
            range := range, reader := reader }

/-- Model of `WebdavProvider::get_cover` (provider.rs lines 88-94): the body
is `todo!()`, which panics unconditionally. -/
def WebdavProvider.get_cover (_album_id : List Nat) (_disc_id : Option Nat) :
    Outcome (List Nat) := .panic

/-- Model of `SeafileProvider::get_cover` (provider.rs lines 195-201): the
body is `unimplemented!()`, which panics unconditionally. -/
def SeafileProvider.get_cover (_album_id : List Nat) (_disc_id : Option Nat) :
    Outcome (List Nat) := .panic

/-- C3: when the served range does not begin at offset 0, `read_duration`
returns duration 0 and hands back the very same stream, with zero bytes
consumed from it. -/
theorem read_duration_skips_nonzero_start (d : List Nat) (range : Range)
    (h : range.start ≠ 0) : read_duration d range = .ok (0, d) := by
  have hc : range.contains_flac_header = false := by
    simp [Range.contains_flac_header, h]
  rw [read_duration, hc]
  rfl

/-- Witness for C3 at a concrete stream and a range starting at offset 5. -/
theorem read_duration_skips_nonzero_start_witness :
    (Range.mk 5 (some 9) none).start ≠ 0 ∧
      read_duration [1, 2, 3] (Range.mk 5 (some 9) none) = .ok (0, [1, 2, 3]) :=
  ⟨by decide, read_duration_skips_nonzero_start [1, 2, 3] (Range.mk 5 (some 9) none) (by decide)⟩

/-- C4: on a stream whose first 42 bytes decode to a header with positive
sample rate, the extractor returns the truncating integer quotient
`total_samples / sample_rate` as the duration. -/
theorem read_duration_quotient (s : List Nat) (hlen : 42 ≤ s.length)
    (hsr : (decodeStreamInfo ((s.drop 8).take 34)).sample_rate ≠ 0) :
    ∃ rest, read_duration s Range.FULL =
      .ok ((decodeStreamInfo ((s.drop 8).take 34)).total_samples /
        (decodeStreamInfo ((s.drop 8).take 34)).sample_rate, rest) := by
  have step : read_duration s Range.FULL =
      match read_header s with
      | .panic => .panic
      | .error => .error
      | .ok (info, rest) =>
        if info.sample_rate = 0 then .panic
        else .ok (info.total_samples / info.sample_rate, rest) := rfl
  refine ⟨natToBytesBE 4 (bytesToNatBE (s.take 4)) ++
    natToBytesBE 4 (bytesToNatBE ((s.drop 4).take 4)) ++
    encodeStreamInfo (decodeStreamInfo ((s.drop 8).take 34)) ++ s.drop 42, ?_⟩
  rw [step, read_header_of_long s hlen]
  show (if (decodeStreamInfo ((s.drop 8).take 34)).sample_rate = 0 then Outcome.panic
    else _) = _
  rw [if_neg hsr]

/-- A concrete 42-byte stream prefix: `fLaC` marker, STREAMINFO block header
word, then a STREAMINFO block with `sample_rate = 44100` and
`total_samples = 441000`. -/
def sampleHeader : List Nat :=
  [102, 76, 97, 67, 0, 0, 0, 34, 0, 0, 0, 0, 0, 0, 0, 0, 0, 0,
    10, 196, 64, 0, 0, 6, 186, 168, 0, 0, 0, 0, 0, 0, 0, 0, 0, 0, 0, 0, 0, 0, 0, 0]

/-- Witness for C4: on the concrete header with sample rate 44100 and
441000 total samples followed by a payload byte, the duration is exactly 10. -/
theorem read_duration_quotient_witness :
    42 ≤ (sampleHeader ++ [1]).length ∧
      (decodeStreamInfo (((sampleHeader ++ [1]).drop 8).take 34)).sample_rate ≠ 0 ∧
      (decodeStreamInfo (((sampleHeader ++ [1]).drop 8).take 34)).sample_rate = 44100 ∧
      (decodeStreamInfo (((sampleHeader ++ [1]).drop 8).take 34)).total_samples = 441000 ∧
      ∃ rest, read_duration (sampleHeader ++ [1]) Range.FULL = .ok (10, rest) := by
  refine ⟨by decide, by decide, by decide, by decide, ?_⟩
  obtain ⟨rest, hrest⟩ := read_duration_quotient (sampleHeader ++ [1]) (by decide) (by decide)
  have e : (decodeStreamInfo (((sampleHeader ++ [1]).drop 8).take 34)).total_samples /
      (decodeStreamInfo (((sampleHeader ++ [1]).drop 8).take 34)).sample_rate = 10 := by decide
  rw [e] at hrest
  exact ⟨rest, hrest⟩

/-- C9: on a stream whose first 42 bytes decode to a header with
`sample_rate = 0`, the duration quotient is an unguarded `u64` division by
zero, so `read_duration` panics instead of returning an error or duration 0. -/
theorem read_duration_div_by_zero (s : List Nat) (hlen : 42 ≤ s.length)
    (hsr : (decodeStreamInfo ((s.drop 8).take 34)).sample_rate = 0) :
    read_duration s Range.FULL = .panic := by
  have step : read_duration s Range.FULL =
      match read_header s with
      | .panic => .panic
      | .error => .error
      | .ok (info, rest) =>
        if info.sample_rate = 0 then .panic
        else .ok (info.total_samples / info.sample_rate, rest) := rfl
  rw [step, read_header_of_long s hlen]
  show (if (decodeStreamInfo ((s.drop 8).take 34)).sample_rate = 0 then Outcome.panic
    else _) = _
  rw [if_pos hsr]

/-- Witness for C9 at the all-zero 42-byte stream, whose decoded sample rate
is 0. -/
theorem read_duration_div_by_zero_witness :
    42 ≤ (List.replicate 42 0).length ∧
      (decodeStreamInfo (((List.replicate 42 0).drop 8).take 34)).sample_rate = 0 ∧
      read_duration (List.replicate 42 0) Range.FULL = .panic :=
  ⟨by decide, by decide, read_duration_div_by_zero (List.replicate 42 0) (by decide) (by decide)⟩

/-- Successful-return test on an outcome. -/
def Outcome.isOk : Outcome α → Bool
  | .ok _ => true
  | _ => false

/-- C7: an absent Content-Range header, and any present header whose byte
length is at most 6 (the length of the fixed prefix), both parse to the FULL
range. -/
theorem content_range_full_on_short :
    content_range_to_range none = .ok Range.FULL ∧
      ∀ s : List Nat, s.length ≤ 6 → content_range_to_range (some s) = .ok Range.FULL := by
  refine ⟨rfl, fun s h => ?_⟩
  simp [content_range_to_range, h]

/-- Witness for C7 at the 3-byte header string abc. -/
theorem content_range_full_on_short_witness :
    ([97, 98, 99] : List Nat).length ≤ 6 ∧
      content_range_to_range (some [97, 98, 99]) = .ok Range.FULL :=
  ⟨by decide, content_range_full_on_short.2 [97, 98, 99] (by decide)⟩

/-- Counterexample to C6: on the 8-byte non-ASCII string with bytes
`aaaaa` followed by the check-mark character U+2713 (bytes 226, 156, 147),
byte index 6 falls inside the multi-byte character, so the slice
`content_range[6..]` panics and the parser is not total. -/
theorem content_range_panics_mid_char :
    content_range_to_range (some [97, 97, 97, 97, 97, 226, 156, 147]) = .panic := by
  decide

/-- C6 (amended): the parser returns a RangeSpec without failing for every
string whose byte length is at most 6 or whose byte at index 6 is not a UTF-8
continuation byte (in particular for every ASCII string); on other strings the
byte slice at index 6 panics.  Each field still falls back independently, as
the three one-bad-field instances show: a bad start alone yields start 0, a
bad end alone yields no end, a bad total alone yields no total. -/
theorem content_range_total_on_boundary :
    (∀ s : List Nat, s.length ≤ 6 ∨ ¬(128 ≤ s.getD 6 0 ∧ s.getD 6 0 < 192) →
        (content_range_to_range (some s)).isOk = true) ∧
      content_range_to_range
          (some [98, 121, 116, 101, 115, 32, 120, 45, 49, 48, 50, 51, 47, 49, 48, 50, 52, 48])
        = .ok ⟨0, some 1023, some 10240⟩ ∧
      content_range_to_range (some [98, 121, 116, 101, 115, 32, 53, 45, 120, 47, 55])
        = .ok ⟨5, none, some 7⟩ ∧
      content_range_to_range (some [98, 121, 116, 101, 115, 32, 53, 45, 55, 47, 120])
        = .ok ⟨5, some 7, none⟩ := by
  refine ⟨fun s h => ?_, by decide, by decide, by decide⟩
  by_cases hlen : s.length ≤ 6
  · simp [content_range_to_range, hlen, Outcome.isOk]
  · have h2 : ¬(128 ≤ s.getD 6 0 ∧ s.getD 6 0 < 192) := by
      rcases h with h | h
      · exact absurd h hlen
      · exact h
    simp only [content_range_to_range, if_neg hlen, if_neg h2, Outcome.isOk]

/-- Witness for the universally quantified part of the amended C6, at the
ASCII string ab-cd/e of length 7. -/
theorem content_range_total_on_boundary_witness :
    (([97, 98, 45, 99, 100, 47, 101] : List Nat).length ≤ 6 ∨
        ¬(128 ≤ ([97, 98, 45, 99, 100, 47, 101] : List Nat).getD 6 0 ∧
          ([97, 98, 45, 99, 100, 47, 101] : List Nat).getD 6 0 < 192)) ∧
      (content_range_to_range (some [97, 98, 45, 99, 100, 47, 101])).isOk = true :=
  ⟨by decide, content_range_total_on_boundary.1 [97, 98, 45, 99, 100, 47, 101] (by decide)⟩

theorem read_header_short_panic (s : List Nat) (h : s.length < 8) :
    read_header s = .panic := by
  by_cases h4 : 4 ≤ s.length
  · have e1 : readBytes 4 s = some (s.take 4, s.drop 4) := by rw [readBytes, if_pos h4]
    have h4d : ¬ 4 ≤ (s.drop 4).length := by simp [List.length_drop]; omega
    have e2 : readBytes 4 (s.drop 4) = none := by rw [readBytes, if_neg h4d]
    simp only [read_header, e1, e2]
  · have e1 : readBytes 4 s = none := by rw [readBytes, if_neg h4]
    simp only [read_header, e1]

theorem read_header_mid_error (s : List Nat) (h8 : 8 ≤ s.length) (h : s.length < 42) :
    read_header s = .error := by
  have h4 : 4 ≤ s.length := by omega
  have h4d : (4 : Nat) ≤ (s.drop 4).length := by simp [List.length_drop]; omega
  have e1 : readBytes 4 s = some (s.take 4, s.drop 4) := by rw [readBytes, if_pos h4]
  have e2 : readBytes 4 (s.drop 4) = some ((s.drop 4).take 4, (s.drop 4).drop 4) := by
    rw [readBytes, if_pos h4d]
  have h34 : ¬ 34 ≤ ((s.drop 4).drop 4).length := by simp [List.length_drop]; omega
  have e3 : readBytes 34 ((s.drop 4).drop 4) = none := by rw [readBytes, if_neg h34]
  simp only [read_header, e1, e2, e3]

theorem read_duration_start_zero (s : List Nat) (range : Range) (hr : range.start = 0) :
    read_duration s range =
      match read_header s with
      | .panic => .panic
      | .error => .error
      | .ok (info, rest) =>
        if info.sample_rate = 0 then .panic
        else .ok (info.total_samples / info.sample_rate, rest) := by
  have hc : range.contains_flac_header = true := by
    simp [Range.contains_flac_header, hr]
  rw [read_duration, hc]
  rfl

/-- Counterexample to C2: on the empty stream, the header read fails inside
the first unwrapped `read_u32`, so `read_duration` panics instead of
returning the failure as an error to the caller. -/
theorem read_duration_empty_panics :
    read_duration [] Range.FULL = .panic ∧
      read_duration [] Range.FULL ≠ .error := by decide

/-- C2 (amended): when the 42-byte header read fails, `read_duration` on a
range starting at offset 0 never returns successfully: a failure within the
first 8 bytes (the two `.unwrap()`ed u32 reads) panics, and a failure within
the 34-byte STREAMINFO region is returned as an error to the caller. -/
theorem read_duration_header_failure (s : List Nat) (range : Range)
    (hr : range.start = 0) (hlen : s.length < 42) :
    read_duration s range = if s.length < 8 then .panic else .error := by
  rw [read_duration_start_zero s range hr]
  by_cases h8 : s.length < 8
  · rw [read_header_short_panic s h8, if_pos h8]
  · rw [read_header_mid_error s (by omega) hlen, if_neg h8]

/-- Witness for the amended C2 at a 10-byte truncated stream and the FULL
range: the failure falls in the STREAMINFO region and is an error. -/
theorem read_duration_header_failure_witness :
    Range.FULL.start = 0 ∧ (List.replicate 10 0).length < 42 ∧
      read_duration (List.replicate 10 0) Range.FULL =
        if (List.replicate 10 0).length < 8 then .panic else .error :=
  ⟨rfl, by decide, read_duration_header_failure (List.replicate 10 0) Range.FULL rfl (by decide)⟩

/-- C5: fetching cover art on either backend variant panics — `todo!()` in
the WebDAV provider, `unimplemented!()` in the Seafile provider — rather than
returning the `Unsupported` error the spec requires; evaluated here at a
concrete album id. -/
theorem get_cover_not_implemented_panics :
    WebdavProvider.get_cover [97] none = .panic ∧
      SeafileProvider.get_cover [97] none = .panic ∧
      (Outcome.panic : Outcome (List Nat)) ≠ .error := by decide

/-- C10: when the transport reports no content length, both `get_audio`
response handlers hit `.unwrap()` on `content_length()` and panic rather than
returning a typed error. -/
theorem get_audio_unwraps_content_length (resp : HttpResponse) (range : Range)
    (h : resp.content_length = none) :
    WebdavProvider.get_audio_response resp range = .panic ∧
      SeafileProvider.get_audio_response resp range = .panic := by
  constructor
  · rw [WebdavProvider.get_audio_response, h]
  · rw [SeafileProvider.get_audio_response, h]

/-- Witness for C10 at a concrete length-less response. -/
theorem get_audio_unwraps_content_length_witness :
    (HttpResponse.mk none none []).content_length = none ∧
      WebdavProvider.get_audio_response (HttpResponse.mk none none []) Range.FULL = .panic ∧
      SeafileProvider.get_audio_response (HttpResponse.mk none none []) Range.FULL = .panic :=
  ⟨rfl, (get_audio_unwraps_content_length (HttpResponse.mk none none []) Range.FULL rfl).1,
    (get_audio_unwraps_content_length (HttpResponse.mk none none []) Range.FULL rfl).2⟩

theorem splitOnce_append (c : Nat) (xs ys : List Nat) (h : c ∉ xs) :
    splitOnce c (xs ++ c :: ys) = some (xs, ys) := by
  induction xs with
  | nil => simp [splitOnce]
  | cons b t ih =>
    rw [List.mem_cons, not_or] at h
    have hb : ¬ b = c := fun e => h.1 e.symm
    simp only [List.cons_append, splitOnce, if_neg hb, List.append_eq, ih h.2]

theorem natDigits_ne_nil (n : Nat) : natDigits n ≠ [] := by
  rw [natDigits]
  by_cases h : n = 0
  · simp [h]
  · simp [h, Nat.digits_ne_nil_iff_ne_zero]

theorem natDigits_mem_bounds (n : Nat) : ∀ b ∈ natDigits n, 48 ≤ b ∧ b ≤ 57 := by
  intro b hb
  rw [natDigits] at hb
  by_cases h : n = 0
  · rw [if_pos h] at hb
    simp at hb
    omega
  · rw [if_neg h] at hb
    simp only [List.mem_map, List.mem_reverse] at hb
    obtain ⟨d, hd, rfl⟩ := hb
    have := Nat.digits_lt_base (by norm_num) hd
    omega

theorem foldl_digits_val (L : List Nat) (a : Nat) :
    (L.reverse.map (fun d => d + 48)).foldl (fun acc b => acc * 10 + (b - 48)) a
      = a * 10 ^ L.length + Nat.ofDigits 10 L := by
  induction L generalizing a with
  | nil => simp
  | cons d t ih =>
    rw [List.reverse_cons, List.map_append, List.foldl_append]
    simp only [List.map_cons, List.map_nil, List.foldl_cons, List.foldl_nil]
    rw [ih, Nat.ofDigits_cons, Nat.add_sub_cancel, List.length_cons, pow_succ]
    ring

theorem natDigits_foldl (n : Nat) :
    (natDigits n).foldl (fun acc b => acc * 10 + (b - 48)) 0 = n := by
  rw [natDigits]
  by_cases h : n = 0
  · simp [h]
  · rw [if_neg h, foldl_digits_val, Nat.ofDigits_digits]
    simp

theorem parseU64_natDigits (n : Nat) (h : n < 2 ^ 64) :
    parseU64 (natDigits n) = some n := by
  have hne := natDigits_ne_nil n
  have hbounds := natDigits_mem_bounds n
  obtain ⟨b, tl, hbt⟩ := List.exists_cons_of_ne_nil hne
  have hhead : ¬ (natDigits n).headD 0 = 43 := by
    have hb := (hbounds b (by rw [hbt]; exact List.mem_cons_self b tl)).1
    rw [hbt, List.headD_cons]
    omega
  have hempty : (natDigits n).isEmpty = false := by
    rw [hbt]
    rfl
  have hall : (natDigits n).all isAsciiDigit = true := by
    rw [List.all_eq_true]
    intro x hx
    have := hbounds x hx
    simp only [isAsciiDigit, Bool.and_eq_true, decide_eq_true_eq]
    omega
  simp only [parseU64, if_neg hhead, hempty, Bool.false_eq_true, if_false, hall, if_true,
    natDigits_foldl, if_pos h]

/-- C8: every well-formed Content-Range header `bytes \x7bs\x7d-\x7be\x7d/\x7bt\x7d` built from
canonical decimal numerals of u64 values parses to exactly start `s`, end `e`,
total `t`. -/
theorem content_range_wellformed (s e t : Nat) (hs : s < 2 ^ 64) (he : e < 2 ^ 64)
    (ht : t < 2 ^ 64) :
    content_range_to_range (some ([98, 121, 116, 101, 115, 32] ++
        (natDigits s ++ 45 :: (natDigits e ++ 47 :: natDigits t)))) =
      .ok ⟨s, some e, some t⟩ := by
  obtain ⟨b, tl, hbt⟩ := List.exists_cons_of_ne_nil (natDigits_ne_nil s)
  have hb48 : 48 ≤ b ∧ b ≤ 57 := by
    apply natDigits_mem_bounds s
    rw [hbt]
    exact List.mem_cons_self b tl
  have hpre : ([98, 121, 116, 101, 115, 32] : List Nat).length = 6 := rfl
  have hlen : ¬ (([98, 121, 116, 101, 115, 32] : List Nat) ++
      (natDigits s ++ 45 :: (natDigits e ++ 47 :: natDigits t))).length ≤ 6 := by
    simp only [List.length_append, List.length_cons, hpre, hbt]
    simp
  have hgetD : (([98, 121, 116, 101, 115, 32] : List Nat) ++
      (natDigits s ++ 45 :: (natDigits e ++ 47 :: natDigits t))).getD 6 0 = b := by
    rw [List.getD_append_right _ _ 0 6 (by rw [hpre]), hpre, hbt]
    rfl
  have hcont : ¬ (128 ≤ (([98, 121, 116, 101, 115, 32] : List Nat) ++
      (natDigits s ++ 45 :: (natDigits e ++ 47 :: natDigits t))).getD 6 0 ∧
      (([98, 121, 116, 101, 115, 32] : List Nat) ++
        (natDigits s ++ 45 :: (natDigits e ++ 47 :: natDigits t))).getD 6 0 < 192) := by
    rw [hgetD]
    omega
  have hdrop : (([98, 121, 116, 101, 115, 32] : List Nat) ++
      (natDigits s ++ 45 :: (natDigits e ++ 47 :: natDigits t))).drop 6
      = natDigits s ++ 45 :: (natDigits e ++ 47 :: natDigits t) :=
    List.drop_left' hpre
  have hno45 : (45 : Nat) ∉ natDigits s := fun hx => by
    have := natDigits_mem_bounds s 45 hx
    omega
  have hno47 : (47 : Nat) ∉ natDigits e := fun hx => by
    have := natDigits_mem_bounds e 47 hx
    omega
  have hsplit1 : splitOnce 45 (natDigits s ++ 45 :: (natDigits e ++ 47 :: natDigits t))
      = some (natDigits s, natDigits e ++ 47 :: natDigits t) :=
    splitOnce_append 45 _ _ hno45
  have hsplit2 : splitOnce 47 (natDigits e ++ 47 :: natDigits t)
      = some (natDigits e, natDigits t) :=
    splitOnce_append 47 _ _ hno47
  simp only [content_range_to_range, if_neg hlen, if_neg hcont, hdrop, hsplit1,
    Option.getD_some, hsplit2, parseU64_natDigits s hs, parseU64_natDigits e he,
    parseU64_natDigits t ht]

/-- Witness for C8 at the spec's example values 0, 1023, 10240; the last
conjunct checks the same parse on the explicit bytes of the string
`bytes 0-1023/10240`. -/
theorem content_range_wellformed_witness :
    (0 : Nat) < 2 ^ 64 ∧ (1023 : Nat) < 2 ^ 64 ∧ (10240 : Nat) < 2 ^ 64 ∧
      natDigits 0 = [48] ∧ natDigits 1023 = [49, 48, 50, 51] ∧
      natDigits 10240 = [49, 48, 50, 52, 48] ∧
      content_range_to_range (some ([98, 121, 116, 101, 115, 32] ++
          (natDigits 0 ++ 45 :: (natDigits 1023 ++ 47 :: natDigits 10240)))) =
        .ok ⟨0, some 1023, some 10240⟩ ∧
      content_range_to_range
          (some [98, 121, 116, 101, 115, 32, 48, 45, 49, 48, 50, 51, 47, 49, 48, 50, 52, 48])
        = .ok ⟨0, some 1023, some 10240⟩ :=
  ⟨by decide, by decide, by decide, by norm_num [natDigits], by norm_num [natDigits],
    by norm_num [natDigits],
    content_range_wellformed 0 1023 10240 (by decide) (by decide) (by decide), by decide⟩

end Annil
